import Mathlib

/- Verification of the entry-management core of tui-journal (src/src/app/mod.rs).

The `App` orchestrator from src/src/app/mod.rs is embedded as a pure state
machine: the `&mut self` receiver becomes explicit state passing, the single
`await` on the persistence collaborator becomes a call to a function stored in
an abstract `DataProvider` record, `anyhow::Result` becomes an explicit result
type, and `expect`/`assert!` panics become an explicit `panic` outcome.  Fields
of the Rust struct that none of the verified operations touch
(`selected_entries`, `settings`, `redraw_after_restore`, and the parts of
`AppState` other than the sorter) are omitted; `state.sorter` is flattened into
a `sorter` field.  The `history`, `filter` and `sorter` submodules and the
`backend` crate are not part of the available sources, so `HistoryManager`,
`Filter.check_entry`, `Sorter` and `EntryDraft` are modelled from the spec, as
marked on each definition. -/

namespace TJ

/-- Entry value type (spec section 3): one journal item.  `DateTime<Utc>` is
modelled as a `Nat` timestamp. -/
structure Entry where
  id : Nat
  title : String
  date : Nat
  tags : List String
  priority : Option Nat
  content : String
  deriving DecidableEq

/-- Modelled from the spec: `EntryDraft` from the `backend` crate (not under
src/): the data required to create an entry before an id is assigned, content
attachable before submission (spec sections 3 and 4.1). -/
structure EntryDraft where
  date : Nat
  title : String
  tags : List String
  priority : Option Nat
  content : String
  deriving DecidableEq

/-- Modelled from the spec: `EntryDraft::new(date, title, tags, priority)`
(spec section 4.1); content starts empty. -/
def EntryDraft.new (date : Nat) (title : String) (tags : List String)
    (priority : Option Nat) : EntryDraft :=
  { date := date, title := title, tags := tags, priority := priority, content := "" }

/-- Modelled from the spec: `EntryDraft::with_content` (spec section 4.1). -/
def EntryDraft.with_content (d : EntryDraft) (content : String) : EntryDraft :=
  { d with content := content }

/-- Snapshot of an entry's attributes before an attribute edit, carried by a
`Change::ChangeAttribute` record (spec section 3). -/
structure EntryAttributes where
  id : Nat
  title : String
  date : Nat
  tags : List String
  priority : Option Nat
  deriving DecidableEq

/-- Modelled from the spec: the `Change` record sum type of the `history`
module (not under src/), matched exhaustively in `App::apply_change`
(src/src/app/mod.rs lines 438-479). -/
inductive Change where
  | AddEntry (id : Nat)
  | RemoveEntry (entry : Entry)
  | ChangeAttribute (attr : EntryAttributes)
  | ChangeContent (id : Nat) (content : String)
  deriving DecidableEq

/-- Modelled from the spec: which history stack a register call targets. -/
inductive HistoryTarget where
  | Undo
  | Redo
  deriving DecidableEq

/-- Modelled from the spec: the history manager's state (spec section 4.4):
two bounded sequences of Change records capped at `history_limit`.  The head
of each list is the most recent record. -/
structure HistoryManager where
  undo_stack : List Change
  redo_stack : List Change
  history_limit : Nat
  deriving DecidableEq

/-- Modelled from the spec: bounded push (spec section 4.4): the new record
becomes the most recent; pushing beyond the cap evicts the oldest record. -/
def pushBounded (limit : Nat) (c : Change) (stack : List Change) : List Change :=
  (c :: stack).take limit

/-- Modelled from the spec: `HistoryManager::new(limit)` with empty stacks. -/
def HistoryManager.new (limit : Nat) : HistoryManager :=
  { undo_stack := [], redo_stack := [], history_limit := limit }

/-- Modelled from the spec: push one record onto the stack named by `target`. -/
def HistoryManager.push (h : HistoryManager) (target : HistoryTarget)
    (c : Change) : HistoryManager :=
  match target with
  | HistoryTarget.Undo => { h with undo_stack := pushBounded h.history_limit c h.undo_stack }
  | HistoryTarget.Redo => { h with redo_stack := pushBounded h.history_limit c h.redo_stack }

/-- Modelled from the spec: `register_add(target, entry)` pushes
`AddEntry { id: entry.id }` (spec section 4.4). -/
def HistoryManager.register_add (h : HistoryManager) (target : HistoryTarget)
    (entry : Entry) : HistoryManager :=
  h.push target (Change.AddEntry entry.id)

/-- Modelled from the spec: `register_remove(target, entry)` pushes
`RemoveEntry(entry)`, capturing the entry's full state before deletion. -/
def HistoryManager.register_remove (h : HistoryManager) (target : HistoryTarget)
    (entry : Entry) : HistoryManager :=
  h.push target (Change.RemoveEntry entry)

/-- Modelled from the spec: `register_change_attributes(target, entry)` pushes
a snapshot of the attributes as they are before the pending mutation. -/
def HistoryManager.register_change_attributes (h : HistoryManager)
    (target : HistoryTarget) (entry : Entry) : HistoryManager :=
  h.push target (Change.ChangeAttribute
    { id := entry.id, title := entry.title, date := entry.date,
      tags := entry.tags, priority := entry.priority })

/-- Modelled from the spec: `register_change_content(target, entry)` pushes the
entry's content as it is before the pending mutation. -/
def HistoryManager.register_change_content (h : HistoryManager)
    (target : HistoryTarget) (entry : Entry) : HistoryManager :=
  h.push target (Change.ChangeContent entry.id entry.content)

/-- Modelled from the spec: `pop_undo` removes and returns the most recent
undo record, or indicates emptiness. -/
def HistoryManager.pop_undo (h : HistoryManager) : Option (Change × HistoryManager) :=
  match h.undo_stack with
  | [] => none
  | c :: rest => some (c, { h with undo_stack := rest })

/-- Modelled from the spec: `pop_redo` removes and returns the most recent
redo record, or indicates emptiness. -/
def HistoryManager.pop_redo (h : HistoryManager) : Option (Change × HistoryManager) :=
  match h.redo_stack with
  | [] => none
  | c :: rest => some (c, { h with redo_stack := rest })

/-- The filter criterion sum type, as matched in `App::update_filter`
(src/src/app/mod.rs lines 349-354). -/
inductive FilterCriterion where
  | Tag (tag : String)
  | Title (title : String)
  | Content (content : String)
  | Priority (priority : Nat)
  deriving DecidableEq

/-- The Filter: an ordered collection of criteria (spec section 3), with the
`criteria` field used by `App::update_filter`. -/
structure Filter where
  criteria : List FilterCriterion
  deriving DecidableEq

/-- Substring containment on lists of characters: true when `needle` occurs
contiguously inside the second list. -/
def listContainsSub (needle : List Char) : List Char → Bool
  | [] => needle.isEmpty
  | c :: rest => needle.isPrefixOf (c :: rest) || listContainsSub needle rest

/-- Substring containment on strings (Rust `str::contains`). -/
def strContains (haystack needle : String) : Bool :=
  listContainsSub needle.data haystack.data

/-- Modelled from the spec: one criterion's match against an entry (spec
section 4.2): `Tag` by exact membership in the tag sequence, `Title` and
`Content` by substring containment, `Priority` by exact equality. -/
def FilterCriterion.matches (c : FilterCriterion) (e : Entry) : Bool :=
  match c with
  | FilterCriterion.Tag t => e.tags.contains t
  | FilterCriterion.Title s => strContains e.title s
  | FilterCriterion.Content s => strContains e.content s
  | FilterCriterion.Priority p => e.priority == some p

/-- Modelled from the spec: `Filter::check_entry` (spec section 4.2): an entry
matches when it satisfies every criterion (logical AND across criteria). -/
def Filter.check_entry (f : Filter) (e : Entry) : Bool :=
  f.criteria.all (fun c => c.matches e)

/-- Modelled from the spec: the sort criteria of the `sorter` module (not
under src/); spec section 8 exercises `Priority` and `Title`. -/
inductive SortCriteria where
  | Date
  | Title
  | Priority
  deriving DecidableEq

/-- Modelled from the spec: ascending/descending direction, applied uniformly
across all criteria (spec section 4.3). -/
inductive SortOrder where
  | Ascending
  | Descending
  deriving DecidableEq

/-- Comparison of optional priorities; an absent priority sorts first. -/
def cmpOptNat : Option Nat → Option Nat → Ordering
  | none, none => Ordering.eq
  | none, some _ => Ordering.lt
  | some _, none => Ordering.gt
  | some a, some b => compare a b

/-- Modelled from the spec: one criterion's comparison of two entries. -/
def SortCriteria.cmp (c : SortCriteria) (a b : Entry) : Ordering :=
  match c with
  | SortCriteria.Date => compare a.date b.date
  | SortCriteria.Title => compare a.title b.title
  | SortCriteria.Priority => cmpOptNat a.priority b.priority

/-- Modelled from the spec: apply criteria in priority order; the first
criterion decides unless tied; ties after all criteria are equal. -/
def cmpByCriteria : List SortCriteria → Entry → Entry → Ordering
  | [], _, _ => Ordering.eq
  | c :: rest, a, b =>
    match c.cmp a b with
    | Ordering.eq => cmpByCriteria rest a b
    | o => o

/-- Modelled from the spec: the Sorter: an ordered list of criteria plus a
direction (spec sections 3 and 4.3). -/
structure Sorter where
  criteria : List SortCriteria
  order : SortOrder
  deriving DecidableEq

/-- Modelled from the spec: `Sorter::sort(entry_a, entry_b) -> ordering`,
honoring the configured direction uniformly (spec section 4.3). -/
def Sorter.sort (s : Sorter) (a b : Entry) : Ordering :=
  match s.order with
  | SortOrder.Ascending => cmpByCriteria s.criteria a b
  | SortOrder.Descending => (cmpByCriteria s.criteria a b).swap

/-- The persistence collaborator (`DataProvider` of the `backend` crate, spec
section 6), restricted to the calls the verified operations make.  Each field
models one async call as a function from the request to its outcome. -/
structure DataProvider where
  add_entry : EntryDraft → Except String Entry
  update_entry : Entry → Except String Unit
  remove_entry : Nat → Except String Unit

/-- The orchestrator state: the fields of `App` (src/src/app/mod.rs lines
33-49) that the verified operations read or write, with `state.sorter`
flattened into `sorter`.  `filtered_out_entries` (a `HashSet<u32>` in the
source) is modelled as the list of ids in collection order; only membership
and emptiness are observed. -/
structure App where
  entries : List Entry
  current_entry_id : Option Nat
  filtered_out_entries : List Nat
  filter : Option Filter
  sorter : Sorter
  history : HistoryManager
  deriving DecidableEq

/-- Outcome of one orchestrator operation: `ok` and `err` carry the state the
`&mut self` receiver holds when the operation returns (an `Err` return does
not roll mutations back), `panic` models `expect`/`assert!` aborting the
process. -/
inductive OpResult (α : Type) where
  | ok (app : App) (val : α)
  | err (app : App) (msg : String)
  | panic (msg : String)
  deriving DecidableEq

def msg_entry_must_be_in_list : String :=
  "entry must be in the entries list"

def msg_current_id_attributes : String :=
  "Current entry id must have value when updating entry attributes"

def msg_current_entry_attributes : String :=
  "Current entry must have value when updating entry attributes"

def msg_current_id_content : String :=
  "Current entry id must have value when updating entry content"

def msg_assert_current_id : String :=
  "assertion failed: self.current_entry_id.is_some()"

/-- `App::get_active_entries` (lines 75-79): entries whose id is not in the
filtered-out set. -/
def get_active_entries (app : App) : List Entry :=
  app.entries.filter (fun e => !app.filtered_out_entries.contains e.id)

/-- Sorted-set insertion backing `get_all_tags` (`BTreeSet::insert`). -/
def insertTag (t : String) : List String → List String
  | [] => [t]
  | x :: xs =>
    if t = x then x :: xs
    else if t < x then t :: x :: xs
    else x :: insertTag t xs

/-- `App::get_all_tags` (lines 327-335): every tag of every entry, collected
into a sorted set and returned as a list. -/
def get_all_tags (app : App) : List String :=
  (app.entries.flatMap (fun e => e.tags)).foldl (fun acc t => insertTag t acc) []

/-- `App::update_filtered_out_entries` (lines 363-374): with an active filter,
recompute the filtered-out set as the ids of the entries failing
`check_entry`; with no filter, clear it. -/
def update_filtered_out_entries (app : App) : App :=
  match app.filter with
  | some f =>
    { app with filtered_out_entries :=
        (app.entries.filter (fun e => !f.check_entry e)).map (fun e => e.id) }
  | none => { app with filtered_out_entries := [] }

/-- `App::update_filter` (lines 344-360): retain `Tag` criteria only when the
tag still exists among all entries, retain `Title`, `Content` and `Priority`
criteria always; drop the filter entirely when the criteria become empty. -/
def update_filter (app : App) : App :=
  match app.filter with
  | none => app
  | some f =>
    let all_tags := get_all_tags app
    let criteria := f.criteria.filter (fun cr =>
      match cr with
      | FilterCriterion.Tag tag => all_tags.contains tag
      | FilterCriterion.Title _ => true
      | FilterCriterion.Content _ => true
      | FilterCriterion.Priority _ => true)
    if criteria.isEmpty then { app with filter := none }
    else { app with filter := some { criteria := criteria } }

/-- `App::apply_filter` (lines 338-341): set the filter, then recompute the
filtered-out set. -/
def apply_filter (app : App) (filter : Option Filter) : App :=
  update_filtered_out_entries { app with filter := filter }

/-- `App::sort_entries` (lines 392-395): stable sort of the collection by the
sorter's comparison (Rust `sort_by` is stable; `insertionSort` is its stable
counterpart here). -/
def sort_entries (app : App) : App :=
  { app with entries :=
      app.entries.insertionSort (fun a b => app.sorter.sort a b ≠ Ordering.gt) }

/-- `App::apply_sort` (lines 385-390): install criteria and order, re-sort. -/
def apply_sort (app : App) (criteria : List SortCriteria) (order : SortOrder) : App :=
  sort_entries { app with sorter := { criteria := criteria, order := order } }

/-- Draft construction at the head of `App::add_entry_intern` (lines 146-149):
`EntryDraft::new` plus `with_content` when content is supplied. -/
def build_draft (title : String) (date : Nat) (tags : List String)
    (priority : Option Nat) (content : Option String) : EntryDraft :=
  let draft := EntryDraft.new date title tags priority
  match content with
  | some c => draft.with_content c
  | none => draft

/-- `App::add_entry_intern` (lines 135-162): build the draft, call the
collaborator (propagating failure with no local mutation), then register
`AddEntry` onto the target stack, push the new entry, re-sort, and recompute
the filtered-out set. -/
def add_entry_intern (D : DataProvider) (app : App) (title : String)
    (date : Nat) (tags : List String) (priority : Option Nat)
    (content : Option String) (history_target : HistoryTarget) : OpResult Nat :=
  match D.add_entry (build_draft title date tags priority content) with
  | Except.error msg => OpResult.err app msg
  | Except.ok entry =>
    let app1 := { app with history := app.history.register_add history_target entry }
    let app2 := { app1 with entries := app1.entries ++ [entry] }
    let app3 := update_filtered_out_entries (sort_entries app2)
    OpResult.ok app3 entry.id

/-- `App::add_entry` (lines 124-133): the user-facing wrapper, targeting the
Undo stack and attaching no content. -/
def add_entry (D : DataProvider) (app : App) (title : String) (date : Nat)
    (tags : List String) (priority : Option Nat) : OpResult Nat :=
  add_entry_intern D app title date tags priority none HistoryTarget.Undo

/-- Replacement of the first entry with the given id, modelling the in-place
mutation through the `&mut Entry` returned by `App::get_entry_mut`. -/
def set_first_by_id (id : Nat) (new : Entry) : List Entry → List Entry
  | [] => []
  | e :: rest => if e.id == id then new :: rest else e :: set_first_by_id id new rest

/-- `App::update_entry_attributes` (lines 185-217): assert a current entry id
is present, look the entry up (registering the pre-mutation snapshot in the
history, `App::get_entry_mut` lines 87-105, panicking when absent), mutate the
attributes in place, call the collaborator with the mutated clone, and only
then — on success — re-sort, prune the filter and recompute the filtered-out
set.  On collaborator failure the mutation and the history record remain. -/
def update_entry_attributes (D : DataProvider) (app : App) (entry_id : Nat)
    (title : String) (date : Nat) (tags : List String) (priority : Option Nat)
    (history_target : HistoryTarget) : OpResult Unit :=
  if app.current_entry_id.isNone then OpResult.panic msg_assert_current_id
  else
    match app.entries.find? (fun e => e.id == entry_id) with
    | none => OpResult.panic msg_current_entry_attributes
    | some entry =>
      let app1 := { app with history :=
        app.history.register_change_attributes history_target entry }
      let updated := { entry with title := title, date := date,
                                  tags := tags, priority := priority }
      let app2 := { app1 with entries := set_first_by_id entry_id updated app1.entries }
      match D.update_entry updated with
      | Except.error msg => OpResult.err app2 msg
      | Except.ok _ =>
        OpResult.ok (update_filtered_out_entries (update_filter (sort_entries app2))) ()

/-- `App::update_current_entry_attributes` (lines 164-183): panics when no
current entry id is selected, then delegates with the Undo target. -/
def update_current_entry_attributes (D : DataProvider) (app : App)
    (title : String) (date : Nat) (tags : List String)
    (priority : Option Nat) : OpResult Unit :=
  match app.current_entry_id with
  | none => OpResult.panic msg_current_id_attributes
  | some id => update_entry_attributes D app id title date tags priority HistoryTarget.Undo

/-- `App::update_entry_content` (lines 230-251): look the entry up
(registering the pre-mutation content in the history, panicking when absent),
mutate the content in place, call the collaborator with the mutated clone, and
only then — on success — recompute the filtered-out set.  On collaborator
failure the mutation and the history record remain. -/
def update_entry_content (D : DataProvider) (app : App) (entry_id : Nat)
    (entry_content : String) (history_target : HistoryTarget) : OpResult Unit :=
  match app.entries.find? (fun e => e.id == entry_id) with
  | none => OpResult.panic msg_current_id_content
  | some entry =>
    let app1 := { app with history :=
      app.history.register_change_content history_target entry }
    let updated := { entry with content := entry_content }
    let app2 := { app1 with entries := set_first_by_id entry_id updated app1.entries }
    match D.update_entry updated with
    | Except.error msg => OpResult.err app2 msg
    | Except.ok _ => OpResult.ok (update_filtered_out_entries app2) ()

/-- `App::update_current_entry_content` (lines 219-228): panics when no
current entry id is selected, then delegates with the Undo target. -/
def update_current_entry_content (D : DataProvider) (app : App)
    (entry_content : String) : OpResult Unit :=
  match app.current_entry_id with
  | none => OpResult.panic msg_current_id_content
  | some id => update_entry_content D app id entry_content HistoryTarget.Undo

/-- Removal of the first entry with the given id, modelling
`position` + `Vec::remove` (lines 266-271); returns the removed entry and the
remaining list. -/
def remove_first_by_id (id : Nat) : List Entry → Option (Entry × List Entry)
  | [] => none
  | e :: rest =>
    if e.id == id then some (e, rest)
    else
      match remove_first_by_id id rest with
      | none => none
      | some (r, rest2) => some (r, e :: rest2)

/-- `App::delete_entry_intern` (lines 258-279): call the collaborator first
(propagating failure with no local mutation), remove the entry from the
collection (panicking when absent), register the `RemoveEntry` snapshot onto
the target stack, prune the filter and recompute the filtered-out set. -/
def delete_entry_intern (D : DataProvider) (app : App) (entry_id : Nat)
    (history_target : HistoryTarget) : OpResult Unit :=
  match D.remove_entry entry_id with
  | Except.error msg => OpResult.err app msg
  | Except.ok _ =>
    match remove_first_by_id entry_id app.entries with
    | none => OpResult.panic msg_entry_must_be_in_list
    | some (removed, rest) =>
      let app1 := { app with entries := rest }
      let app2 := { app1 with history :=
        app1.history.register_remove history_target removed }
      OpResult.ok (update_filtered_out_entries (update_filter app2)) ()

/-- `App::delete_entry` (lines 253-256): the user-facing wrapper, targeting
the Undo stack. -/
def delete_entry (D : DataProvider) (app : App) (entry_id : Nat) : OpResult Unit :=
  delete_entry_intern D app entry_id HistoryTarget.Undo

/-- `App::apply_change` (lines 433-480): execute the inverse action described
by a popped Change record, registering the new inverse onto `history_target`;
returns the id of the affected entry when one survives the operation. -/
def apply_change (D : DataProvider) (app : App) (change : Change)
    (history_target : HistoryTarget) : OpResult (Option Nat) :=
  match change with
  | Change.AddEntry id =>
    match delete_entry_intern D app id history_target with
    | OpResult.ok app2 _ => OpResult.ok app2 none
    | OpResult.err app2 msg => OpResult.err app2 msg
    | OpResult.panic msg => OpResult.panic msg
  | Change.RemoveEntry entry =>
    match add_entry_intern D app entry.title entry.date entry.tags entry.priority
        (some entry.content) history_target with
    | OpResult.ok app2 id => OpResult.ok app2 (some id)
    | OpResult.err app2 msg => OpResult.err app2 msg
    | OpResult.panic msg => OpResult.panic msg
  | Change.ChangeAttribute attr =>
    match update_entry_attributes D app attr.id attr.title attr.date attr.tags
        attr.priority history_target with
    | OpResult.ok app2 _ => OpResult.ok app2 (some attr.id)
    | OpResult.err app2 msg => OpResult.err app2 msg
    | OpResult.panic msg => OpResult.panic msg
  | Change.ChangeContent id content =>
    match update_entry_content D app id content history_target with
    | OpResult.ok app2 _ => OpResult.ok app2 (some id)
    | OpResult.err app2 msg => OpResult.err app2 msg
    | OpResult.panic msg => OpResult.panic msg

/-- `App::undo` (lines 418-423): pop the most recent undo record (the pop
itself already removes it, even if the replay later fails) and apply it with
the Redo target; with an empty stack, succeed with no effect. -/
def undo (D : DataProvider) (app : App) : OpResult (Option Nat) :=
  match app.history.pop_undo with
  | none => OpResult.ok app none
  | some (change, h) => apply_change D { app with history := h } change HistoryTarget.Redo

/-- `App::redo` (lines 426-431): pop the most recent redo record and apply it
with the Undo target; with an empty stack, succeed with no effect. -/
def redo (D : DataProvider) (app : App) : OpResult (Option Nat) :=
  match app.history.pop_redo with
  | none => OpResult.ok app none
  | some (change, h) => apply_change D { app with history := h } change HistoryTarget.Undo

/-- Projection of an operation's outcome to the history state the orchestrator
holds afterwards; `none` for a panic (the process is gone). -/
def result_history {α : Type} : OpResult α → Option HistoryManager
  | OpResult.ok app _ => some app.history
  | OpResult.err app _ => some app.history
  | OpResult.panic _ => none

/-- Both history stacks hold at most `history_limit` records. -/
def stacks_bounded (h : HistoryManager) : Prop :=
  h.undo_stack.length ≤ h.history_limit ∧ h.redo_stack.length ≤ h.history_limit

/-- The filtered-out set holds exactly the ids of the entries failing the
active filter, and is empty when no filter is active. -/
def filtered_out_spec (app : App) : Prop :=
  match app.filter with
  | some f => ∀ id, id ∈ app.filtered_out_entries ↔
      ∃ e, e ∈ app.entries ∧ e.id = id ∧ f.check_entry e = false
  | none => app.filtered_out_entries = []

/-- The active entries are exactly the entries matching the active filter
(all of them, when no filter is active). -/
def active_entries_spec (app : App) : Prop :=
  ∀ e, e ∈ get_active_entries app ↔
    (e ∈ app.entries ∧
      match app.filter with
      | some f => f.check_entry e = true
      | none => True)

/-- The two derived-view invariants together; the active-entries direction
needs the collection's ids to be unique (spec section 3 invariant). -/
def filter_view_consistent (app : App) : Prop :=
  filtered_out_spec app ∧
    ((app.entries.map (fun e => e.id)).Nodup → active_entries_spec app)

/-- Some entry in the collection bears the tag. -/
def tag_exists (entries : List Entry) (t : String) : Bool :=
  entries.any (fun e => e.tags.contains t)

/-- The criteria surviving pruning against a collection: `Tag` criteria only
when the tag still occurs on some entry, every other criterion always. -/
def pruned_criteria (entries : List Entry) (f : Filter) : List FilterCriterion :=
  f.criteria.filter (fun cr =>
    match cr with
    | FilterCriterion.Tag t => tag_exists entries t
    | FilterCriterion.Title _ => true
    | FilterCriterion.Content _ => true
    | FilterCriterion.Priority _ => true)

/-- How the active filter of the state after a mutation relates to the one
before: an absent filter stays absent; a present one keeps exactly the
criteria surviving pruning against the new collection, and disappears
entirely when none survive. -/
def filter_pruned (app app' : App) : Prop :=
  (app.filter = none → app'.filter = none) ∧
  ∀ f, app.filter = some f →
    app'.filter =
      if (pruned_criteria app'.entries f).isEmpty then none
      else some { criteria := pruned_criteria app'.entries f }

/-- After replaying the change `c`, exactly one record describing the inverse
of the executed inverse action was pushed (bounded) onto the other stack:
`oldStack`/`newStack` are that stack before and after.  For an `AddEntry`
replay the collection also lost exactly the removed entry. -/
def inverse_registered (D : DataProvider) (app app' : App) (c : Change)
    (oldStack newStack : List Change) : Prop :=
  match c with
  | Change.AddEntry id =>
      ∃ e rest2, remove_first_by_id id app.entries = some (e, rest2) ∧
        e.id = id ∧ app'.entries = rest2 ∧
        newStack = pushBounded app.history.history_limit (Change.RemoveEntry e) oldStack
  | Change.RemoveEntry entry =>
      ∃ ne, D.add_entry (build_draft entry.title entry.date entry.tags entry.priority
          (some entry.content)) = Except.ok ne ∧
        newStack = pushBounded app.history.history_limit (Change.AddEntry ne.id) oldStack
  | Change.ChangeAttribute attr =>
      ∃ e, app.entries.find? (fun x => x.id == attr.id) = some e ∧
        newStack = pushBounded app.history.history_limit
          (Change.ChangeAttribute
            { id := e.id, title := e.title, date := e.date,
              tags := e.tags, priority := e.priority }) oldStack
  | Change.ChangeContent id _ =>
      ∃ e, app.entries.find? (fun x => x.id == id) = some e ∧
        newStack = pushBounded app.history.history_limit
          (Change.ChangeContent e.id e.content) oldStack

/-- Sample entry with id 1 used to instantiate the theorems. -/
def e1 : Entry :=
  { id := 1, title := "X", date := 10, tags := ["a"], priority := some 1, content := "old" }

/-- Sample entry with id 2. -/
def e2 : Entry :=
  { id := 2, title := "Y", date := 20, tags := ["b"], priority := none, content := "c2" }

/-- Trivial sorter (no criteria): the comparison is always a tie, so the
stable sort leaves the collection order unchanged. -/
def sorter0 : Sorter := { criteria := [], order := SortOrder.Ascending }

/-- Empty history with limit 5. -/
def hist5 : HistoryManager := { undo_stack := [], redo_stack := [], history_limit := 5 }

/-- Sample orchestrator state: two entries, entry 1 current, no filter. -/
def app0 : App :=
  { entries := [e1, e2], current_entry_id := some 1, filtered_out_entries := [],
    filter := none, sorter := sorter0, history := hist5 }

/-- Collaborator that always succeeds, assigning id 100 to created entries
and otherwise honoring the submitted draft. -/
def Dok : DataProvider :=
  { add_entry := fun d => Except.ok
      { id := 100, title := d.title, date := d.date,
        tags := d.tags, priority := d.priority, content := d.content : Entry },
    update_entry := fun _ => Except.ok (),
    remove_entry := fun _ => Except.ok () }

/-- The error message of the failing collaborator. -/
def errmsg : String := "disk full"

/-- Collaborator whose every call fails. -/
def Dfail : DataProvider :=
  { add_entry := fun _ => Except.error errmsg,
    update_entry := fun _ => Except.error errmsg,
    remove_entry := fun _ => Except.error errmsg }

/-- The state the failing content update leaves behind: entry 1's content is
already replaced and the inverse record is already pushed. -/
def app0_cerr : App :=
  { app0 with
    entries := [{ e1 with content := "new" }, e2],
    history := { undo_stack := [Change.ChangeContent 1 "old"], redo_stack := [],
                 history_limit := 5 } }

/-- `app0` with an `AddEntry 1` record on the undo stack. -/
def app1 : App :=
  { app0 with history := { undo_stack := [Change.AddEntry 1], redo_stack := [],
                           history_limit := 5 } }

/-- The state after undoing that `AddEntry 1`: entry 1 deleted, its full
snapshot registered on the redo stack. -/
def app1_after : App :=
  { app0 with
    entries := [e2],
    history := { undo_stack := [], redo_stack := [Change.RemoveEntry e1],
                 history_limit := 5 } }

/-- The entry the sample collaborator creates for a fresh draft titled T. -/
def eT : Entry :=
  { id := 100, title := "T", date := 5, tags := [], priority := none, content := "" }

/-- The state after a successful `add_entry` of a draft titled T. -/
def app_add : App :=
  { app0 with
    entries := [e1, e2, eT],
    history := { undo_stack := [Change.AddEntry 100], redo_stack := [],
                 history_limit := 5 } }

/-- A filter with the single criterion `Tag "a"`. -/
def filt1 : Filter := { criteria := [FilterCriterion.Tag "a"] }

/-- `app0` with the `Tag "a"` filter active (entry 2 filtered out). -/
def appf : App := { app0 with filter := some filt1, filtered_out_entries := [2] }

/-- The state after deleting entry 1 from `appf`: the last bearer of tag "a"
is gone, so the filter was pruned away entirely and the set cleared. -/
def appf_after : App :=
  { app0 with
    entries := [e2],
    filter := none,
    history := { undo_stack := [Change.RemoveEntry e1], redo_stack := [],
                 history_limit := 5 } }

/-- `app0` with no current entry selected. -/
def appNoCur : App := { app0 with current_entry_id := none }

/-- A sample attribute snapshot for entry 1. -/
def a1 : EntryAttributes :=
  { id := 1, title := "t", date := 0, tags := [], priority := none }

/-- `appNoCur` with a `ChangeAttribute` record on the undo stack. -/
def appNoCurH : App :=
  { appNoCur with history := { undo_stack := [Change.ChangeAttribute a1],
                               redo_stack := [], history_limit := 5 } }

theorem sort_entries_history (app : App) : (sort_entries app).history = app.history := rfl

theorem sort_entries_filter (app : App) : (sort_entries app).filter = app.filter := rfl

theorem sort_entries_filtered_out (app : App) :
    (sort_entries app).filtered_out_entries = app.filtered_out_entries := rfl

theorem update_filtered_out_history (app : App) :
    (update_filtered_out_entries app).history = app.history := by
  cases hf : app.filter <;> simp [update_filtered_out_entries, hf]

theorem update_filtered_out_entries_eq (app : App) :
    (update_filtered_out_entries app).entries = app.entries := by
  cases hf : app.filter <;> simp [update_filtered_out_entries, hf]

theorem update_filtered_out_filter (app : App) :
    (update_filtered_out_entries app).filter = app.filter := by
  cases hf : app.filter <;> simp [update_filtered_out_entries, hf]

theorem update_filter_history (app : App) :
    (update_filter app).history = app.history := by
  cases hf : app.filter <;> simp only [update_filter, hf]
  · split <;> rfl

theorem update_filter_entries (app : App) :
    (update_filter app).entries = app.entries := by
  cases hf : app.filter <;> simp only [update_filter, hf]
  · split <;> rfl

theorem update_filter_filtered_out (app : App) :
    (update_filter app).filtered_out_entries = app.filtered_out_entries := by
  cases hf : app.filter <;> simp only [update_filter, hf]
  · split <;> rfl

theorem add_entry_intern_ok_inv {D : DataProvider} {app : App} {title : String}
    {date : Nat} {tags : List String} {priority : Option Nat}
    {content : Option String} {ht : HistoryTarget} {app' : App} {v : Nat}
    (h : add_entry_intern D app title date tags priority content ht = OpResult.ok app' v) :
    ∃ ne, D.add_entry (build_draft title date tags priority content) = Except.ok ne ∧
      v = ne.id ∧
      app' = update_filtered_out_entries (sort_entries
        { app with history := app.history.register_add ht ne,
                   entries := app.entries ++ [ne] }) := by
  unfold add_entry_intern at h
  split at h
  · exact OpResult.noConfusion h
  · rename_i ne hD
    simp only [OpResult.ok.injEq] at h
    exact ⟨ne, hD, h.2.symm, h.1.symm⟩

theorem add_entry_intern_err_inv {D : DataProvider} {app : App} {title : String}
    {date : Nat} {tags : List String} {priority : Option Nat}
    {content : Option String} {ht : HistoryTarget} {app' : App} {m : String}
    (h : add_entry_intern D app title date tags priority content ht = OpResult.err app' m) :
    app' = app ∧ D.add_entry (build_draft title date tags priority content) = Except.error m := by
  unfold add_entry_intern at h
  split at h
  · rename_i msg hD
    simp only [OpResult.err.injEq] at h
    exact ⟨h.1.symm, h.2 ▸ hD⟩
  · exact OpResult.noConfusion h

theorem delete_entry_intern_ok_inv {D : DataProvider} {app : App} {entry_id : Nat}
    {ht : HistoryTarget} {app' : App} {v : Unit}
    (h : delete_entry_intern D app entry_id ht = OpResult.ok app' v) :
    ∃ removed rest2, remove_first_by_id entry_id app.entries = some (removed, rest2) ∧
      app' = update_filtered_out_entries (update_filter
        { app with entries := rest2,
                   history := app.history.register_remove ht removed }) := by
  unfold delete_entry_intern at h
  split at h
  · exact OpResult.noConfusion h
  · split at h
    · exact OpResult.noConfusion h
    · rename_i removed rest2 hrm
      simp only [OpResult.ok.injEq] at h
      exact ⟨removed, rest2, hrm, h.1.symm⟩

theorem delete_entry_intern_err_inv {D : DataProvider} {app : App} {entry_id : Nat}
    {ht : HistoryTarget} {app' : App} {m : String}
    (h : delete_entry_intern D app entry_id ht = OpResult.err app' m) :
    app' = app ∧ D.remove_entry entry_id = Except.error m := by
  unfold delete_entry_intern at h
  split at h
  · rename_i msg hD
    simp only [OpResult.err.injEq] at h
    exact ⟨h.1.symm, h.2 ▸ hD⟩
  · split at h
    · exact OpResult.noConfusion h
    · exact OpResult.noConfusion h

theorem update_entry_content_ok_inv {D : DataProvider} {app : App} {entry_id : Nat}
    {entry_content : String} {ht : HistoryTarget} {app' : App} {v : Unit}
    (h : update_entry_content D app entry_id entry_content ht = OpResult.ok app' v) :
    ∃ entry, app.entries.find? (fun e => e.id == entry_id) = some entry ∧
      D.update_entry { entry with content := entry_content } = Except.ok () ∧
      app' = update_filtered_out_entries
        { app with history := app.history.register_change_content ht entry,
                   entries := set_first_by_id entry_id
                     { entry with content := entry_content } app.entries } := by
  unfold update_entry_content at h
  split at h
  · exact OpResult.noConfusion h
  · rename_i entry hfind
    dsimp only at h
    split at h
    · exact OpResult.noConfusion h
    · rename_i u hD
      simp only [OpResult.ok.injEq] at h
      exact ⟨entry, hfind, hD, h.1.symm⟩

theorem update_entry_content_err_inv {D : DataProvider} {app : App} {entry_id : Nat}
    {entry_content : String} {ht : HistoryTarget} {app' : App} {m : String}
    (h : update_entry_content D app entry_id entry_content ht = OpResult.err app' m) :
    ∃ entry, app.entries.find? (fun e => e.id == entry_id) = some entry ∧
      D.update_entry { entry with content := entry_content } = Except.error m ∧
      app' = { app with history := app.history.register_change_content ht entry,
                        entries := set_first_by_id entry_id
                          { entry with content := entry_content } app.entries } := by
  unfold update_entry_content at h
  split at h
  · exact OpResult.noConfusion h
  · rename_i entry hfind
    dsimp only at h
    split at h
    · rename_i msg hD
      simp only [OpResult.err.injEq] at h
      exact ⟨entry, hfind, h.2 ▸ hD, h.1.symm⟩
    · exact OpResult.noConfusion h

theorem update_entry_attributes_ok_inv {D : DataProvider} {app : App} {entry_id : Nat}
    {title : String} {date : Nat} {tags : List String} {priority : Option Nat}
    {ht : HistoryTarget} {app' : App} {v : Unit}
    (h : update_entry_attributes D app entry_id title date tags priority ht =
      OpResult.ok app' v) :
    app.current_entry_id.isNone = false ∧
    ∃ entry, app.entries.find? (fun e => e.id == entry_id) = some entry ∧
      D.update_entry { entry with title := title, date := date,
                                  tags := tags, priority := priority } = Except.ok () ∧
      app' = update_filtered_out_entries (update_filter (sort_entries
        { app with history := app.history.register_change_attributes ht entry,
                   entries := set_first_by_id entry_id
                     { entry with title := title, date := date,
                                  tags := tags, priority := priority }
                     app.entries })) := by
  unfold update_entry_attributes at h
  split at h
  · exact OpResult.noConfusion h
  · rename_i hcur
    split at h
    · exact OpResult.noConfusion h
    · rename_i entry hfind
      dsimp only at h
      split at h
      · exact OpResult.noConfusion h
      · rename_i u hD
        simp only [OpResult.ok.injEq] at h
        exact ⟨Bool.of_not_eq_true hcur, entry, hfind, hD, h.1.symm⟩

theorem update_entry_attributes_err_inv {D : DataProvider} {app : App} {entry_id : Nat}
    {title : String} {date : Nat} {tags : List String} {priority : Option Nat}
    {ht : HistoryTarget} {app' : App} {m : String}
    (h : update_entry_attributes D app entry_id title date tags priority ht =
      OpResult.err app' m) :
    app.current_entry_id.isNone = false ∧
    ∃ entry, app.entries.find? (fun e => e.id == entry_id) = some entry ∧
      D.update_entry { entry with title := title, date := date,
                                  tags := tags, priority := priority } = Except.error m ∧
      app' = { app with history := app.history.register_change_attributes ht entry,
                        entries := set_first_by_id entry_id
                          { entry with title := title, date := date,
                                       tags := tags, priority := priority }
                          app.entries } := by
  unfold update_entry_attributes at h
  split at h
  · exact OpResult.noConfusion h
  · rename_i hcur
    split at h
    · exact OpResult.noConfusion h
    · rename_i entry hfind
      dsimp only at h
      split at h
      · rename_i msg hD
        simp only [OpResult.err.injEq] at h
        exact ⟨Bool.of_not_eq_true hcur, entry, hfind, h.2 ▸ hD, h.1.symm⟩
      · exact OpResult.noConfusion h

theorem remove_first_by_id_eq_none {id : Nat} {l : List Entry}
    (h : ∀ e ∈ l, e.id ≠ id) : remove_first_by_id id l = none := by
  induction l with
  | nil => rfl
  | cons e rest ih =>
    have he : (e.id == id) = false :=
      beq_eq_false_iff_ne.mpr (h e (List.mem_cons_self e rest))
    simp [remove_first_by_id, he, ih (fun x hx => h x (List.mem_cons_of_mem _ hx))]

theorem remove_first_by_id_found {id : Nat} {l : List Entry} {e : Entry}
    {rest : List Entry} (h : remove_first_by_id id l = some (e, rest)) :
    e.id = id := by
  induction l generalizing e rest with
  | nil => exact Option.noConfusion h
  | cons x xs ih =>
    unfold remove_first_by_id at h
    split at h
    · rename_i hx
      simp only [Option.some.injEq, Prod.mk.injEq] at h
      exact h.1 ▸ beq_iff_eq.mp hx
    · split at h
      · exact Option.noConfusion h
      · rename_i r rest2 hr
        simp only [Option.some.injEq, Prod.mk.injEq] at h
        exact h.1 ▸ ih hr

theorem pushBounded_length_le (limit : Nat) (c : Change) (s : List Change) :
    (pushBounded limit c s).length ≤ limit := by
  simp only [pushBounded, List.length_take]
  exact inf_le_left

theorem stacks_bounded_push {h : HistoryManager} (hb : stacks_bounded h)
    (t : HistoryTarget) (c : Change) : stacks_bounded (h.push t c) := by
  cases t
  · exact ⟨pushBounded_length_le _ _ _, hb.2⟩
  · exact ⟨hb.1, pushBounded_length_le _ _ _⟩

theorem history_ok_add {D : DataProvider} {app : App} {title : String}
    {date : Nat} {tags : List String} {priority : Option Nat}
    {content : Option String} {ht : HistoryTarget} {app' : App} {v : Nat}
    (h : add_entry_intern D app title date tags priority content ht = OpResult.ok app' v) :
    ∃ c, app'.history = app.history.push ht c := by
  obtain ⟨ne, _, _, rfl⟩ := add_entry_intern_ok_inv h
  exact ⟨Change.AddEntry ne.id,
    by rw [update_filtered_out_history, sort_entries_history]; rfl⟩

theorem history_effect_add {D : DataProvider} {app : App} {title : String}
    {date : Nat} {tags : List String} {priority : Option Nat}
    {content : Option String} {ht : HistoryTarget} {h2 : HistoryManager}
    (h : result_history (add_entry_intern D app title date tags priority content ht) =
      some h2) :
    h2 = app.history ∨ ∃ c, h2 = app.history.push ht c := by
  cases hres : add_entry_intern D app title date tags priority content ht with
  | ok a v =>
    rw [hres] at h
    simp only [result_history, Option.some.injEq] at h
    obtain ⟨c, hc⟩ := history_ok_add hres
    exact Or.inr ⟨c, h ▸ hc⟩
  | err a m =>
    rw [hres] at h
    simp only [result_history, Option.some.injEq] at h
    obtain ⟨rfl, -⟩ := add_entry_intern_err_inv hres
    exact Or.inl h.symm
  | panic m => rw [hres] at h; exact Option.noConfusion h

theorem history_ok_delete {D : DataProvider} {app : App} {entry_id : Nat}
    {ht : HistoryTarget} {app' : App} {v : Unit}
    (h : delete_entry_intern D app entry_id ht = OpResult.ok app' v) :
    ∃ c, app'.history = app.history.push ht c := by
  obtain ⟨removed, rest2, -, rfl⟩ := delete_entry_intern_ok_inv h
  exact ⟨Change.RemoveEntry removed,
    by rw [update_filtered_out_history, update_filter_history]; rfl⟩

theorem history_effect_delete {D : DataProvider} {app : App} {entry_id : Nat}
    {ht : HistoryTarget} {h2 : HistoryManager}
    (h : result_history (delete_entry_intern D app entry_id ht) = some h2) :
    h2 = app.history ∨ ∃ c, h2 = app.history.push ht c := by
  cases hres : delete_entry_intern D app entry_id ht with
  | ok a v =>
    rw [hres] at h
    simp only [result_history, Option.some.injEq] at h
    obtain ⟨c, hc⟩ := history_ok_delete hres
    exact Or.inr ⟨c, h ▸ hc⟩
  | err a m =>
    rw [hres] at h
    simp only [result_history, Option.some.injEq] at h
    obtain ⟨rfl, -⟩ := delete_entry_intern_err_inv hres
    exact Or.inl h.symm
  | panic m => rw [hres] at h; exact Option.noConfusion h

theorem history_effect_ucontent {D : DataProvider} {app : App} {entry_id : Nat}
    {entry_content : String} {ht : HistoryTarget} {h2 : HistoryManager}
    (h : result_history (update_entry_content D app entry_id entry_content ht) =
      some h2) :
    ∃ c, h2 = app.history.push ht c := by
  cases hres : update_entry_content D app entry_id entry_content ht with
  | ok a v =>
    rw [hres] at h
    simp only [result_history, Option.some.injEq] at h
    obtain ⟨entry, -, -, rfl⟩ := update_entry_content_ok_inv hres
    exact ⟨Change.ChangeContent entry.id entry.content,
      by rw [← h, update_filtered_out_history]; rfl⟩
  | err a m =>
    rw [hres] at h
    simp only [result_history, Option.some.injEq] at h
    obtain ⟨entry, -, -, rfl⟩ := update_entry_content_err_inv hres
    exact ⟨Change.ChangeContent entry.id entry.content, h.symm⟩
  | panic m => rw [hres] at h; exact Option.noConfusion h

theorem history_effect_uattr {D : DataProvider} {app : App} {entry_id : Nat}
    {title : String} {date : Nat} {tags : List String} {priority : Option Nat}
    {ht : HistoryTarget} {h2 : HistoryManager}
    (h : result_history (update_entry_attributes D app entry_id title date tags priority ht) =
      some h2) :
    ∃ c, h2 = app.history.push ht c := by
  cases hres : update_entry_attributes D app entry_id title date tags priority ht with
  | ok a v =>
    rw [hres] at h
    simp only [result_history, Option.some.injEq] at h
    obtain ⟨-, entry, -, -, rfl⟩ := update_entry_attributes_ok_inv hres
    exact ⟨Change.ChangeAttribute
      { id := entry.id, title := entry.title, date := entry.date,
        tags := entry.tags, priority := entry.priority },
      by rw [← h, update_filtered_out_history, update_filter_history, sort_entries_history]; rfl⟩
  | err a m =>
    rw [hres] at h
    simp only [result_history, Option.some.injEq] at h
    obtain ⟨-, entry, -, -, rfl⟩ := update_entry_attributes_err_inv hres
    exact ⟨Change.ChangeAttribute
      { id := entry.id, title := entry.title, date := entry.date,
        tags := entry.tags, priority := entry.priority }, h.symm⟩
  | panic m => rw [hres] at h; exact Option.noConfusion h

theorem history_ok_uattr {D : DataProvider} {app : App} {entry_id : Nat}
    {title : String} {date : Nat} {tags : List String} {priority : Option Nat}
    {ht : HistoryTarget} {app' : App} {v : Unit}
    (h : update_entry_attributes D app entry_id title date tags priority ht =
      OpResult.ok app' v) :
    ∃ cr, app'.history = app.history.push ht cr := by
  obtain ⟨-, entry, -, -, rfl⟩ := update_entry_attributes_ok_inv h
  exact ⟨Change.ChangeAttribute
    { id := entry.id, title := entry.title, date := entry.date,
      tags := entry.tags, priority := entry.priority },
    by rw [update_filtered_out_history, update_filter_history, sort_entries_history]; rfl⟩

theorem history_err_uattr {D : DataProvider} {app : App} {entry_id : Nat}
    {title : String} {date : Nat} {tags : List String} {priority : Option Nat}
    {ht : HistoryTarget} {app' : App} {m : String}
    (h : update_entry_attributes D app entry_id title date tags priority ht =
      OpResult.err app' m) :
    ∃ cr, app'.history = app.history.push ht cr := by
  obtain ⟨-, entry, -, -, rfl⟩ := update_entry_attributes_err_inv h
  exact ⟨Change.ChangeAttribute
    { id := entry.id, title := entry.title, date := entry.date,
      tags := entry.tags, priority := entry.priority }, rfl⟩

theorem history_ok_ucontent {D : DataProvider} {app : App} {entry_id : Nat}
    {entry_content : String} {ht : HistoryTarget} {app' : App} {v : Unit}
    (h : update_entry_content D app entry_id entry_content ht = OpResult.ok app' v) :
    ∃ cr, app'.history = app.history.push ht cr := by
  obtain ⟨entry, -, -, rfl⟩ := update_entry_content_ok_inv h
  exact ⟨Change.ChangeContent entry.id entry.content,
    by rw [update_filtered_out_history]; rfl⟩

theorem history_err_ucontent {D : DataProvider} {app : App} {entry_id : Nat}
    {entry_content : String} {ht : HistoryTarget} {app' : App} {m : String}
    (h : update_entry_content D app entry_id entry_content ht = OpResult.err app' m) :
    ∃ cr, app'.history = app.history.push ht cr := by
  obtain ⟨entry, -, -, rfl⟩ := update_entry_content_err_inv h
  exact ⟨Change.ChangeContent entry.id entry.content, rfl⟩

theorem history_effect_apply_change {D : DataProvider} {app : App} {c : Change}
    {tgt : HistoryTarget} {h2 : HistoryManager}
    (h : result_history (apply_change D app c tgt) = some h2) :
    h2 = app.history ∨ ∃ cr, h2 = app.history.push tgt cr := by
  cases c with
  | AddEntry id =>
    simp only [apply_change] at h
    cases hres : delete_entry_intern D app id tgt with
    | ok a v =>
      rw [hres] at h
      have h' : a.history = h2 := Option.some.inj h
      obtain ⟨cr, hc⟩ := history_ok_delete hres
      exact Or.inr ⟨cr, h' ▸ hc⟩
    | err a m =>
      rw [hres] at h
      have h' : a.history = h2 := Option.some.inj h
      obtain ⟨rfl, -⟩ := delete_entry_intern_err_inv hres
      exact Or.inl h'.symm
    | panic m => rw [hres] at h; exact Option.noConfusion h
  | RemoveEntry entry =>
    simp only [apply_change] at h
    cases hres : add_entry_intern D app entry.title entry.date entry.tags entry.priority
        (some entry.content) tgt with
    | ok a v =>
      rw [hres] at h
      have h' : a.history = h2 := Option.some.inj h
      obtain ⟨cr, hc⟩ := history_ok_add hres
      exact Or.inr ⟨cr, h' ▸ hc⟩
    | err a m =>
      rw [hres] at h
      have h' : a.history = h2 := Option.some.inj h
      obtain ⟨rfl, -⟩ := add_entry_intern_err_inv hres
      exact Or.inl h'.symm
    | panic m => rw [hres] at h; exact Option.noConfusion h
  | ChangeAttribute attr =>
    simp only [apply_change] at h
    cases hres : update_entry_attributes D app attr.id attr.title attr.date attr.tags
        attr.priority tgt with
    | ok a v =>
      rw [hres] at h
      have h' : a.history = h2 := Option.some.inj h
      obtain ⟨cr, hc⟩ := history_ok_uattr hres
      exact Or.inr ⟨cr, h' ▸ hc⟩
    | err a m =>
      rw [hres] at h
      have h' : a.history = h2 := Option.some.inj h
      obtain ⟨cr, hc⟩ := history_err_uattr hres
      exact Or.inr ⟨cr, h' ▸ hc⟩
    | panic m => rw [hres] at h; exact Option.noConfusion h
  | ChangeContent id content =>
    simp only [apply_change] at h
    cases hres : update_entry_content D app id content tgt with
    | ok a v =>
      rw [hres] at h
      have h' : a.history = h2 := Option.some.inj h
      obtain ⟨cr, hc⟩ := history_ok_ucontent hres
      exact Or.inr ⟨cr, h' ▸ hc⟩
    | err a m =>
      rw [hres] at h
      have h' : a.history = h2 := Option.some.inj h
      obtain ⟨cr, hc⟩ := history_err_ucontent hres
      exact Or.inr ⟨cr, h' ▸ hc⟩
    | panic m => rw [hres] at h; exact Option.noConfusion h

theorem stacks_bounded_pop_undo {h : HistoryManager} {c : Change}
    {h1 : HistoryManager} (hp : h.pop_undo = some (c, h1))
    (hb : stacks_bounded h) : stacks_bounded h1 := by
  unfold HistoryManager.pop_undo at hp
  split at hp
  · exact Option.noConfusion hp
  · rename_i c0 rest hs
    simp only [Option.some.injEq, Prod.mk.injEq] at hp
    refine ⟨?_, hp.2 ▸ hb.2⟩
    have := hb.1
    rw [hs] at this
    have hle : rest.length ≤ (c0 :: rest).length := Nat.le_succ rest.length
    exact hp.2 ▸ le_trans hle this

theorem stacks_bounded_pop_redo {h : HistoryManager} {c : Change}
    {h1 : HistoryManager} (hp : h.pop_redo = some (c, h1))
    (hb : stacks_bounded h) : stacks_bounded h1 := by
  unfold HistoryManager.pop_redo at hp
  split at hp
  · exact Option.noConfusion hp
  · rename_i c0 rest hs
    simp only [Option.some.injEq, Prod.mk.injEq] at hp
    refine ⟨hp.2 ▸ hb.1, ?_⟩
    have := hb.2
    rw [hs] at this
    have hle : rest.length ≤ (c0 :: rest).length := Nat.le_succ rest.length
    exact hp.2 ▸ le_trans hle this

theorem stacks_bounded_of_effect {h0 h2 : HistoryManager}
    (he : h2 = h0 ∨ ∃ c t, h2 = HistoryManager.push h0 t c)
    (hb : stacks_bounded h0) : stacks_bounded h2 := by
  rcases he with rfl | ⟨c, t, rfl⟩
  · exact hb
  · exact stacks_bounded_push hb t c

theorem pushBounded_full_evicts_oldest (limit : Nat) (c : Change) (s : List Change)
    (hfull : s.length = limit) (hpos : 0 < limit) :
    pushBounded limit c s = c :: s.dropLast := by
  obtain ⟨k, rfl⟩ : ∃ k, limit = k + 1 := ⟨limit - 1, (Nat.succ_pred_eq_of_pos hpos).symm⟩
  simp only [pushBounded, List.take_succ_cons, List.dropLast_eq_take, hfull,
    Nat.add_sub_cancel]

/-- C9: calling undo with an empty undo stack, or redo with an empty redo
stack, is not an error: it returns the successful no-effect indication
Ok(None), and the whole orchestrator state — entry collection, both history
stacks, filter, filtered-out set — is returned unchanged. -/
theorem undo_redo_empty_no_effect :
    ∀ (D : DataProvider) (app : App),
      (app.history.undo_stack = [] → undo D app = OpResult.ok app none) ∧
      (app.history.redo_stack = [] → redo D app = OpResult.ok app none) := by
  intro D app
  constructor
  · intro h
    simp [undo, HistoryManager.pop_undo, h]
  · intro h
    simp [redo, HistoryManager.pop_redo, h]

/-- Witness for C9 at the concrete state `app0`, whose stacks are empty. -/
theorem undo_redo_empty_no_effect_witness :
    app0.history.undo_stack = [] ∧ undo Dok app0 = OpResult.ok app0 none ∧
    app0.history.redo_stack = [] ∧ redo Dok app0 = OpResult.ok app0 none :=
  ⟨rfl, (undo_redo_empty_no_effect Dok app0).1 rfl,
   rfl, (undo_redo_empty_no_effect Dok app0).2 rfl⟩

/-- C10: when the collaborator removal succeeds but no entry with the given id
is in the in-memory collection, delete panics with "entry must be in the
entries list" instead of returning a recoverable error, and the same panic is
reachable by replaying an `AddEntry` record whose entry is gone. -/
theorem delete_missing_entry_panics :
    ∀ (D : DataProvider) (app : App) (id : Nat) (ht : HistoryTarget),
      D.remove_entry id = Except.ok () →
      (∀ e ∈ app.entries, e.id ≠ id) →
      delete_entry_intern D app id ht = OpResult.panic msg_entry_must_be_in_list ∧
      apply_change D app (Change.AddEntry id) ht =
        OpResult.panic msg_entry_must_be_in_list := by
  intro D app id ht hD hmem
  have hrm := remove_first_by_id_eq_none hmem
  constructor
  · simp [delete_entry_intern, hD, hrm]
  · simp [apply_change, delete_entry_intern, hD, hrm]

/-- Witness for C10: `app0` holds no entry with id 3. -/
theorem delete_missing_entry_panics_witness :
    Dok.remove_entry 3 = Except.ok () ∧ (∀ e ∈ app0.entries, e.id ≠ 3) ∧
    delete_entry_intern Dok app0 3 HistoryTarget.Undo =
      OpResult.panic msg_entry_must_be_in_list ∧
    apply_change Dok app0 (Change.AddEntry 3) HistoryTarget.Undo =
      OpResult.panic msg_entry_must_be_in_list :=
  ⟨rfl, by decide,
   delete_missing_entry_panics Dok app0 3 HistoryTarget.Undo rfl (by decide)⟩

/-- C6: the history stacks never exceed history_limit: freshly created stacks
are bounded, any bounded push stays within the limit, pushing onto a full
stack evicts exactly the oldest record (the last of the most-recent-first
list) while keeping the recent ones, and every operation of the orchestrator
— the four mutating cores, replay, undo and redo — preserves boundedness of
both stacks in every non-panic outcome. -/
theorem history_stacks_bounded_fifo :
    (∀ limit : Nat, stacks_bounded (HistoryManager.new limit)) ∧
    (∀ (limit : Nat) (c : Change) (s : List Change),
        (pushBounded limit c s).length ≤ limit) ∧
    (∀ (limit : Nat) (c : Change) (s : List Change), s.length = limit → 0 < limit →
        pushBounded limit c s = c :: s.dropLast) ∧
    (∀ (D : DataProvider) (app : App) (title : String) (date : Nat)
        (tags : List String) (priority : Option Nat) (content : Option String)
        (ht : HistoryTarget) (h2 : HistoryManager),
        result_history (add_entry_intern D app title date tags priority content ht) =
          some h2 →
        stacks_bounded app.history → stacks_bounded h2) ∧
    (∀ (D : DataProvider) (app : App) (entry_id : Nat) (title : String) (date : Nat)
        (tags : List String) (priority : Option Nat) (ht : HistoryTarget)
        (h2 : HistoryManager),
        result_history (update_entry_attributes D app entry_id title date tags priority ht) =
          some h2 →
        stacks_bounded app.history → stacks_bounded h2) ∧
    (∀ (D : DataProvider) (app : App) (entry_id : Nat) (entry_content : String)
        (ht : HistoryTarget) (h2 : HistoryManager),
        result_history (update_entry_content D app entry_id entry_content ht) = some h2 →
        stacks_bounded app.history → stacks_bounded h2) ∧
    (∀ (D : DataProvider) (app : App) (entry_id : Nat) (ht : HistoryTarget)
        (h2 : HistoryManager),
        result_history (delete_entry_intern D app entry_id ht) = some h2 →
        stacks_bounded app.history → stacks_bounded h2) ∧
    (∀ (D : DataProvider) (app : App) (c : Change) (tgt : HistoryTarget)
        (h2 : HistoryManager),
        result_history (apply_change D app c tgt) = some h2 →
        stacks_bounded app.history → stacks_bounded h2) ∧
    (∀ (D : DataProvider) (app : App) (h2 : HistoryManager),
        result_history (undo D app) = some h2 →
        stacks_bounded app.history → stacks_bounded h2) ∧
    (∀ (D : DataProvider) (app : App) (h2 : HistoryManager),
        result_history (redo D app) = some h2 →
        stacks_bounded app.history → stacks_bounded h2) := by
  refine ⟨?_, ?_, ?_, ?_, ?_, ?_, ?_, ?_, ?_, ?_⟩
  · intro limit; exact ⟨Nat.zero_le _, Nat.zero_le _⟩
  · exact pushBounded_length_le
  · exact pushBounded_full_evicts_oldest
  · intro D app title date tags priority content ht h2 h hb
    rcases history_effect_add h with rfl | ⟨c, rfl⟩
    · exact hb
    · exact stacks_bounded_push hb ht c
  · intro D app entry_id title date tags priority ht h2 h hb
    obtain ⟨c, rfl⟩ := history_effect_uattr h
    exact stacks_bounded_push hb ht c
  · intro D app entry_id entry_content ht h2 h hb
    obtain ⟨c, rfl⟩ := history_effect_ucontent h
    exact stacks_bounded_push hb ht c
  · intro D app entry_id ht h2 h hb
    rcases history_effect_delete h with rfl | ⟨c, rfl⟩
    · exact hb
    · exact stacks_bounded_push hb ht c
  · intro D app c tgt h2 h hb
    rcases history_effect_apply_change h with rfl | ⟨cr, rfl⟩
    · exact hb
    · exact stacks_bounded_push hb tgt cr
  · intro D app h2 h hb
    unfold undo at h
    cases hp : app.history.pop_undo with
    | none =>
      rw [hp] at h
      have h' : app.history = h2 := Option.some.inj h
      exact h' ▸ hb
    | some pr =>
      obtain ⟨c1, h1⟩ := pr
      rw [hp] at h
      have hb1 : stacks_bounded h1 := stacks_bounded_pop_undo hp hb
      rcases history_effect_apply_change h with rfl | ⟨cr, rfl⟩
      · exact hb1
      · exact stacks_bounded_push hb1 _ cr
  · intro D app h2 h hb
    unfold redo at h
    cases hp : app.history.pop_redo with
    | none =>
      rw [hp] at h
      have h' : app.history = h2 := Option.some.inj h
      exact h' ▸ hb
    | some pr =>
      obtain ⟨c1, h1⟩ := pr
      rw [hp] at h
      have hb1 : stacks_bounded h1 := stacks_bounded_pop_redo hp hb
      rcases history_effect_apply_change h with rfl | ⟨cr, rfl⟩
      · exact hb1
      · exact stacks_bounded_push hb1 _ cr

/-- Witness for C6: pushing onto a full 2-slot stack keeps the most recent
record and evicts the oldest one. -/
theorem history_stacks_bounded_fifo_witness :
    ([Change.AddEntry 1, Change.AddEntry 2] : List Change).length = 2 ∧ (0 < 2) ∧
    pushBounded 2 (Change.AddEntry 3) [Change.AddEntry 1, Change.AddEntry 2] =
      [Change.AddEntry 3, Change.AddEntry 1] := by
  refine ⟨rfl, Nat.zero_lt_succ 1, ?_⟩
  rw [history_stacks_bounded_fifo.2.2.1 2 (Change.AddEntry 3)
    [Change.AddEntry 1, Change.AddEntry 2] rfl (Nat.zero_lt_succ 1)]
  rfl

/-- C7: the four user-facing mutating operations register their change record
onto the Undo stack and never touch the Redo stack: every non-panic outcome
leaves the redo stack exactly as it was (so a fresh mutation after an undo
does not clear or alter the redo stack), and every successful outcome has
pushed exactly one record with the Undo target. -/
theorem user_ops_target_undo :
    ∀ (D : DataProvider) (app : App) (title : String) (date : Nat)
      (tags : List String) (priority : Option Nat) (content : String) (id : Nat),
      (∀ h2, result_history (add_entry D app title date tags priority) = some h2 →
          h2.redo_stack = app.history.redo_stack) ∧
      (∀ app' v, add_entry D app title date tags priority = OpResult.ok app' v →
          ∃ c, app'.history = app.history.push HistoryTarget.Undo c) ∧
      (∀ h2, result_history (update_current_entry_attributes D app title date tags priority)
            = some h2 →
          h2.redo_stack = app.history.redo_stack) ∧
      (∀ app' v, update_current_entry_attributes D app title date tags priority =
            OpResult.ok app' v →
          ∃ c, app'.history = app.history.push HistoryTarget.Undo c) ∧
      (∀ h2, result_history (update_current_entry_content D app content) = some h2 →
          h2.redo_stack = app.history.redo_stack) ∧
      (∀ app' v, update_current_entry_content D app content = OpResult.ok app' v →
          ∃ c, app'.history = app.history.push HistoryTarget.Undo c) ∧
      (∀ h2, result_history (delete_entry D app id) = some h2 →
          h2.redo_stack = app.history.redo_stack) ∧
      (∀ app' v, delete_entry D app id = OpResult.ok app' v →
          ∃ c, app'.history = app.history.push HistoryTarget.Undo c) := by
  intro D app title date tags priority content id
  have hredo : ∀ {h2 : HistoryManager},
      (h2 = app.history ∨ ∃ c, h2 = app.history.push HistoryTarget.Undo c) →
      h2.redo_stack = app.history.redo_stack := by
    rintro h2 (rfl | ⟨c, rfl⟩) <;> rfl
  refine ⟨?_, ?_, ?_, ?_, ?_, ?_, ?_, ?_⟩
  · intro h2 h
    unfold add_entry at h
    exact hredo (history_effect_add h)
  · intro app' v h
    unfold add_entry at h
    exact history_ok_add h
  · intro h2 h
    unfold update_current_entry_attributes at h
    cases hc : app.current_entry_id with
    | none => rw [hc] at h; exact Option.noConfusion h
    | some cid =>
      rw [hc] at h
      obtain ⟨c, rfl⟩ := history_effect_uattr h
      rfl
  · intro app' v h
    unfold update_current_entry_attributes at h
    cases hc : app.current_entry_id with
    | none => rw [hc] at h; exact OpResult.noConfusion h
    | some cid =>
      rw [hc] at h
      exact history_ok_uattr h
  · intro h2 h
    unfold update_current_entry_content at h
    cases hc : app.current_entry_id with
    | none => rw [hc] at h; exact Option.noConfusion h
    | some cid =>
      rw [hc] at h
      obtain ⟨c, rfl⟩ := history_effect_ucontent h
      rfl
  · intro app' v h
    unfold update_current_entry_content at h
    cases hc : app.current_entry_id with
    | none => rw [hc] at h; exact OpResult.noConfusion h
    | some cid =>
      rw [hc] at h
      exact history_ok_ucontent h
  · intro h2 h
    unfold delete_entry at h
    exact hredo (history_effect_delete h)
  · intro app' v h
    unfold delete_entry at h
    exact history_ok_delete h

/-- Witness for C7: a successful `add_entry` on `app0` pushes its record with
the Undo target; the redo stack is untouched. -/
theorem user_ops_target_undo_witness :
    add_entry Dok app0 "T" 5 [] none = OpResult.ok app_add 100 ∧
    (∃ c, app_add.history = app0.history.push HistoryTarget.Undo c) ∧
    result_history (add_entry Dok app0 "T" 5 [] none) = some app_add.history ∧
    app_add.history.redo_stack = app0.history.redo_stack := by
  have hok : add_entry Dok app0 "T" 5 [] none = OpResult.ok app_add 100 := by decide
  refine ⟨hok, (user_ops_target_undo Dok app0 "T" 5 [] none "" 1).2.1 app_add 100 hok, ?_, ?_⟩
  · rw [hok]; rfl
  · exact (user_ops_target_undo Dok app0 "T" 5 [] none "" 1).1 app_add.history
      (by rw [hok]; rfl)

/-- C1 counterexample: a failed collaborator write during update_entry_content
does not leave the state untouched: the error is returned, but entry 1's
content has already been replaced and a ChangeContent record has already been
pushed onto the undo stack. -/
theorem failed_write_not_atomic_counterexample :
    update_entry_content Dfail app0 1 "new" HistoryTarget.Undo =
      OpResult.err app0_cerr errmsg ∧
    app0_cerr.entries ≠ app0.entries ∧
    (app0.entries.find? (fun e => e.id == 1)).map (fun e => e.content) = some "old" ∧
    (app0_cerr.entries.find? (fun e => e.id == 1)).map (fun e => e.content) = some "new" ∧
    app0_cerr.history.undo_stack = [Change.ChangeContent 1 "old"] ∧
    app0.history.undo_stack = [] := by
  refine ⟨by decide, by decide, by decide, by decide, rfl, rfl⟩

/-- C1 (amended): add and delete call the collaborator first, so on failure
they return the error with the state exactly unchanged; but the two update
operations mutate the entry in place and register the history record before
the collaborator call, so on failure the error is propagated while the entry
keeps its new values and exactly one record remains pushed — only the filter,
the filtered-out set and the rest of the state are unchanged there. -/
theorem mutation_failure_policy :
    ∀ (D : DataProvider) (app : App) (title : String) (date : Nat)
      (tags : List String) (priority : Option Nat) (content : Option String)
      (new_content : String) (id : Nat) (ht : HistoryTarget),
      (∀ m, D.add_entry (build_draft title date tags priority content) = Except.error m →
          add_entry_intern D app title date tags priority content ht =
            OpResult.err app m) ∧
      (∀ m, D.remove_entry id = Except.error m →
          delete_entry_intern D app id ht = OpResult.err app m) ∧
      (∀ e m, app.entries.find? (fun x => x.id == id) = some e →
          D.update_entry { e with content := new_content } = Except.error m →
          update_entry_content D app id new_content ht =
            OpResult.err
              { app with
                history := app.history.register_change_content ht e,
                entries := set_first_by_id id { e with content := new_content }
                  app.entries }
              m) ∧
      (∀ e m, app.current_entry_id.isNone = false →
          app.entries.find? (fun x => x.id == id) = some e →
          D.update_entry { e with title := title, date := date, tags := tags,
                                  priority := priority } = Except.error m →
          update_entry_attributes D app id title date tags priority ht =
            OpResult.err
              { app with
                history := app.history.register_change_attributes ht e,
                entries := set_first_by_id id
                  { e with title := title, date := date, tags := tags,
                           priority := priority } app.entries }
              m) := by
  intro D app title date tags priority content new_content id ht
  refine ⟨?_, ?_, ?_, ?_⟩
  · intro m hm
    simp [add_entry_intern, hm]
  · intro m hm
    simp [delete_entry_intern, hm]
  · intro e m hfind hupd
    simp [update_entry_content, hfind, hupd]
  · intro e m hcur hfind hupd
    simp [update_entry_attributes, hcur, hfind, hupd]

/-- Witness for the amended C1 at the failing collaborator: the error is
propagated and the already-mutated state is exactly the one described. -/
theorem mutation_failure_policy_witness :
    app0.entries.find? (fun x => x.id == 1) = some e1 ∧
    Dfail.update_entry { e1 with content := "new" } = Except.error errmsg ∧
    update_entry_content Dfail app0 1 "new" HistoryTarget.Undo =
      OpResult.err
        { app0 with
          history := app0.history.register_change_content HistoryTarget.Undo e1,
          entries := set_first_by_id 1 { e1 with content := "new" } app0.entries }
        errmsg :=
  ⟨by decide, rfl,
   (mutation_failure_policy Dfail app0 "" 0 [] none none "new" 1
      HistoryTarget.Undo).2.2.1 e1 errmsg (by decide) rfl⟩

/-- C3: replaying a RemoveEntry(snapshot) record submits to the collaborator a
draft carrying exactly the snapshot's title, date, tags, priority and content;
on success the collection gains exactly the entry the collaborator returned —
whose id is whatever the collaborator assigned — and that id is reported. -/
theorem remove_entry_replay_recreates :
    ∀ (D : DataProvider) (app : App) (e : Entry) (ht : HistoryTarget),
      ((build_draft e.title e.date e.tags e.priority (some e.content)).title = e.title ∧
       (build_draft e.title e.date e.tags e.priority (some e.content)).date = e.date ∧
       (build_draft e.title e.date e.tags e.priority (some e.content)).tags = e.tags ∧
       (build_draft e.title e.date e.tags e.priority (some e.content)).priority =
         e.priority ∧
       (build_draft e.title e.date e.tags e.priority (some e.content)).content =
         e.content) ∧
      (∀ m, D.add_entry (build_draft e.title e.date e.tags e.priority (some e.content)) =
            Except.error m →
          apply_change D app (Change.RemoveEntry e) ht = OpResult.err app m) ∧
      (∀ ne, D.add_entry (build_draft e.title e.date e.tags e.priority (some e.content)) =
            Except.ok ne →
          apply_change D app (Change.RemoveEntry e) ht =
            OpResult.ok (update_filtered_out_entries (sort_entries
              { app with history := app.history.register_add ht ne,
                         entries := app.entries ++ [ne] })) (some ne.id)) := by
  intro D app e ht
  refine ⟨⟨rfl, rfl, rfl, rfl, rfl⟩, ?_, ?_⟩
  · intro m hm
    simp [apply_change, add_entry_intern, hm]
  · intro ne hne
    simp [apply_change, add_entry_intern, hne]

/-- Witness for C3: replaying the removal of entry `e1` against `Dok`
re-creates it with the collaborator-assigned id 100. -/
theorem remove_entry_replay_recreates_witness :
    Dok.add_entry (build_draft e1.title e1.date e1.tags e1.priority (some e1.content)) =
      Except.ok { e1 with id := 100 } ∧
    apply_change Dok app0 (Change.RemoveEntry e1) HistoryTarget.Redo =
      OpResult.ok (update_filtered_out_entries (sort_entries
        { app0 with
          history := app0.history.register_add HistoryTarget.Redo { e1 with id := 100 },
          entries := app0.entries ++ [{ e1 with id := 100 }] })) (some 100) :=
  ⟨rfl, (remove_entry_replay_recreates Dok app0 e1 HistoryTarget.Redo).2.2
    { e1 with id := 100 } rfl⟩

/-- C8 counterexample: a ChangeAttribute record replayed through the by-id
variant does hit a fatal path when current_entry_id is None — the assert at
the top of update_entry_attributes fires during undo. -/
theorem replay_attr_no_current_counterexample :
    appNoCurH.current_entry_id = none ∧
    appNoCurH.history.undo_stack = [Change.ChangeAttribute a1] ∧
    undo Dok appNoCurH = OpResult.panic msg_assert_current_id ∧
    apply_change Dok appNoCur (Change.ChangeAttribute a1) HistoryTarget.Redo =
      OpResult.panic msg_assert_current_id := by
  refine ⟨rfl, rfl, by decide, by decide⟩

/-- C8 (amended): the current-entry wrappers treat an absent current-entry id
as a fatal precondition violation; the by-id update_entry_content never
consults current_entry_id — with the target id present it cannot panic, and
with it absent it panics for that reason only; but the by-id
update_entry_attributes (the variant ChangeAttribute replay uses) also asserts
that a current entry id is present, so replay with current_entry_id = None is
fatal there despite the explicit id. -/
theorem current_entry_fatal_paths :
    ∀ (D : DataProvider) (app : App) (title content : String) (date : Nat)
      (tags : List String) (priority : Option Nat) (id : Nat) (ht : HistoryTarget),
      (app.current_entry_id = none →
          update_current_entry_attributes D app title date tags priority =
            OpResult.panic msg_current_id_attributes) ∧
      (app.current_entry_id = none →
          update_current_entry_content D app content =
            OpResult.panic msg_current_id_content) ∧
      (app.current_entry_id = none →
          update_entry_attributes D app id title date tags priority ht =
            OpResult.panic msg_assert_current_id) ∧
      (∀ e, app.entries.find? (fun x => x.id == id) = some e →
          ∀ m, update_entry_content D app id content ht ≠ OpResult.panic m) ∧
      (app.entries.find? (fun x => x.id == id) = none →
          update_entry_content D app id content ht =
            OpResult.panic msg_current_id_content) := by
  intro D app title content date tags priority id ht
  refine ⟨?_, ?_, ?_, ?_, ?_⟩
  · intro hc
    simp [update_current_entry_attributes, hc]
  · intro hc
    simp [update_current_entry_content, hc]
  · intro hc
    simp [update_entry_attributes, hc]
  · intro e hfind m
    simp only [update_entry_content, hfind]
    cases hD : D.update_entry { e with content := content } <;> simp [hD]
  · intro hfind
    simp [update_entry_content, hfind]

/-- Witness for the amended C8 at `appNoCur` (no current entry selected). -/
theorem current_entry_fatal_paths_witness :
    appNoCur.current_entry_id = none ∧
    update_current_entry_attributes Dok appNoCur "t" 0 [] none =
      OpResult.panic msg_current_id_attributes ∧
    update_current_entry_content Dok appNoCur "c" =
      OpResult.panic msg_current_id_content ∧
    update_entry_attributes Dok appNoCur 1 "t" 0 [] none HistoryTarget.Redo =
      OpResult.panic msg_assert_current_id ∧
    appNoCur.entries.find? (fun x => x.id == 1) = some e1 ∧
    (∀ m, update_entry_content Dok appNoCur 1 "c" HistoryTarget.Redo ≠
      OpResult.panic m) := by
  have H := current_entry_fatal_paths Dok appNoCur "t" "c" 0 [] none 1 HistoryTarget.Redo
  exact ⟨rfl, H.1 rfl, H.2.1 rfl, H.2.2.1 rfl, by decide,
    fun m => H.2.2.2.1 e1 (by decide) m⟩

theorem mem_insertTag {x t : String} {l : List String} :
    x ∈ insertTag t l ↔ x = t ∨ x ∈ l := by
  induction l with
  | nil => simp [insertTag]
  | cons y ys ih =>
    simp only [insertTag]
    split
    · rename_i h1
      subst h1
      simp only [List.mem_cons]
      tauto
    · split
      · simp only [List.mem_cons]
      · simp only [List.mem_cons, ih]
        tauto

theorem mem_foldl_insertTag {x : String} {l acc : List String} :
    x ∈ l.foldl (fun a t => insertTag t a) acc ↔ x ∈ l ∨ x ∈ acc := by
  induction l generalizing acc with
  | nil => simp
  | cons y ys ih =>
    simp only [List.foldl_cons, ih, mem_insertTag, List.mem_cons]
    tauto

theorem mem_get_all_tags {app : App} {t : String} :
    t ∈ get_all_tags app ↔ ∃ e ∈ app.entries, t ∈ e.tags := by
  unfold get_all_tags
  rw [mem_foldl_insertTag]
  simp [List.mem_flatMap]

theorem get_all_tags_contains_eq (app : App) (t : String) :
    (get_all_tags app).contains t = tag_exists app.entries t := by
  rw [Bool.eq_iff_iff]
  unfold tag_exists
  rw [List.any_eq_true]
  constructor
  · intro hc
    obtain ⟨e, he, ht⟩ := mem_get_all_tags.mp (List.elem_iff.mp hc)
    exact ⟨e, he, List.elem_iff.mpr ht⟩
  · rintro ⟨e, he, ht⟩
    exact List.elem_iff.mpr (mem_get_all_tags.mpr ⟨e, he, List.elem_iff.mp ht⟩)

theorem update_filter_char (app : App) :
    (update_filter app).filter =
      match app.filter with
      | none => none
      | some f =>
        if (pruned_criteria app.entries f).isEmpty then none
        else some { criteria := pruned_criteria app.entries f } := by
  cases hf : app.filter with
  | none => simp [update_filter, hf]
  | some f =>
    simp only [update_filter, hf]
    have hcrit : f.criteria.filter (fun cr =>
        match cr with
        | FilterCriterion.Tag tag => (get_all_tags app).contains tag
        | FilterCriterion.Title _ => true
        | FilterCriterion.Content _ => true
        | FilterCriterion.Priority _ => true) = pruned_criteria app.entries f := by
      unfold pruned_criteria
      apply List.filter_congr
      intro cr hcr
      cases cr with
      | Tag s => exact get_all_tags_contains_eq app s
      | Title s => rfl
      | Content s => rfl
      | Priority p => rfl
    rw [hcrit]
    split <;> rfl

theorem filter_pruned_ufoe_uf (app appX : App) (hfil : appX.filter = app.filter) :
    filter_pruned app (update_filtered_out_entries (update_filter appX)) := by
  constructor
  · intro h0
    rw [update_filtered_out_filter, update_filter_char, hfil, h0]
  · intro f hf
    rw [update_filtered_out_filter, update_filter_char, hfil, hf,
      update_filtered_out_entries_eq, update_filter_entries]

/-- C5: after a successful deletion or attribute update, the filter keeps
exactly the criteria surviving pruning against the new collection: every
Tag(T) criterion with T no longer on any entry is removed, Title, Content and
Priority criteria are always retained, and a filter whose criteria list ends
up empty becomes None. -/
theorem filter_pruning :
    ∀ (D : DataProvider) (app : App) (id : Nat) (title : String) (date : Nat)
      (tags : List String) (priority : Option Nat) (ht : HistoryTarget)
      (app' : App) (u : Unit) (t : String),
      (delete_entry_intern D app id ht = OpResult.ok app' u →
          filter_pruned app app') ∧
      (update_entry_attributes D app id title date tags priority ht =
            OpResult.ok app' u →
          filter_pruned app app') ∧
      (tag_exists app.entries t = true ↔ ∃ e ∈ app.entries, t ∈ e.tags) ∧
      (∀ f : Filter,
        (FilterCriterion.Tag t ∈ pruned_criteria app.entries f ↔
          FilterCriterion.Tag t ∈ f.criteria ∧ tag_exists app.entries t = true) ∧
        (∀ cr ∈ f.criteria, (∀ s, cr ≠ FilterCriterion.Tag s) →
            cr ∈ pruned_criteria app.entries f)) := by
  intro D app id title date tags priority ht app' u t
  refine ⟨?_, ?_, ?_, ?_⟩
  · intro h
    obtain ⟨removed, rest2, -, rfl⟩ := delete_entry_intern_ok_inv h
    exact filter_pruned_ufoe_uf app _ rfl
  · intro h
    obtain ⟨-, entry, -, -, rfl⟩ := update_entry_attributes_ok_inv h
    exact filter_pruned_ufoe_uf app _ rfl
  · unfold tag_exists
    rw [List.any_eq_true]
    constructor
    · rintro ⟨e, he, ht2⟩
      exact ⟨e, he, List.elem_iff.mp ht2⟩
    · rintro ⟨e, he, ht2⟩
      exact ⟨e, he, List.elem_iff.mpr ht2⟩
  · intro f
    constructor
    · unfold pruned_criteria
      rw [List.mem_filter]
    · intro cr hcr hnt
      unfold pruned_criteria
      rw [List.mem_filter]
      refine ⟨hcr, ?_⟩
      cases cr with
      | Tag s => exact absurd rfl (hnt s)
      | Title s => rfl
      | Content s => rfl
      | Priority p => rfl

/-- Witness for C5: deleting entry 1 — the only bearer of tag "a" — from
`appf`, whose filter is the single criterion Tag "a", empties the criteria
and removes the filter. -/
theorem filter_pruning_witness :
    delete_entry_intern Dok appf 1 HistoryTarget.Undo = OpResult.ok appf_after () ∧
    appf.filter = some filt1 ∧ appf_after.filter = none ∧
    filter_pruned appf appf_after := by
  have hok : delete_entry_intern Dok appf 1 HistoryTarget.Undo =
      OpResult.ok appf_after () := by decide
  exact ⟨hok, rfl, rfl,
    (filter_pruning Dok appf 1 "" 0 [] none HistoryTarget.Undo appf_after () "a").1 hok⟩

theorem not_contains_iff {l : List Nat} {x : Nat} :
    (!l.contains x) = true ↔ x ∉ l := by
  show (!l.elem x) = true ↔ x ∉ l
  rw [Bool.not_eq_true', ← Bool.not_eq_true]
  exact not_congr List.elem_iff

theorem filtered_out_spec_ufoe (app : App) :
    filtered_out_spec (update_filtered_out_entries app) := by
  unfold filtered_out_spec
  cases hf : app.filter with
  | none =>
    have hf' : (update_filtered_out_entries app).filter = none := by
      rw [update_filtered_out_filter, hf]
    rw [hf']
    simp [update_filtered_out_entries, hf]
  | some f =>
    have hf' : (update_filtered_out_entries app).filter = some f := by
      rw [update_filtered_out_filter, hf]
    rw [hf']
    intro id
    have hfo : (update_filtered_out_entries app).filtered_out_entries =
        (app.entries.filter (fun e => !f.check_entry e)).map (fun e => e.id) := by
      simp [update_filtered_out_entries, hf]
    rw [hfo, update_filtered_out_entries_eq]
    simp only [List.mem_map, List.mem_filter]
    constructor
    · rintro ⟨e, ⟨he, hc⟩, rfl⟩
      exact ⟨e, he, rfl, by simpa using hc⟩
    · rintro ⟨e, he, rfl, hc⟩
      exact ⟨e, ⟨he, by simp [hc]⟩, rfl⟩

theorem active_of_filtered_out_spec {app : App} (hs : filtered_out_spec app)
    (hnd : (app.entries.map (fun e => e.id)).Nodup) : active_entries_spec app := by
  intro e
  unfold get_active_entries
  rw [List.mem_filter]
  unfold filtered_out_spec at hs
  cases hf : app.filter with
  | none =>
    rw [hf] at hs
    constructor
    · rintro ⟨he, -⟩
      exact ⟨he, trivial⟩
    · rintro ⟨he, -⟩
      refine ⟨he, ?_⟩
      rw [hs]
      rfl
  | some f =>
    rw [hf] at hs
    constructor
    · rintro ⟨he, hnotin⟩
      refine ⟨he, ?_⟩
      by_contra hcheck
      have hfalse : f.check_entry e = false := Bool.not_eq_true _ ▸ hcheck
      have hmem : e.id ∈ app.filtered_out_entries :=
        (hs e.id).mpr ⟨e, he, rfl, hfalse⟩
      exact (not_contains_iff.mp hnotin) hmem
    · rintro ⟨he, hcheck⟩
      refine ⟨he, not_contains_iff.mpr ?_⟩
      intro hmem
      obtain ⟨e2, he2, hid, hc2⟩ := (hs e.id).mp hmem
      have : e2 = e := List.inj_on_of_nodup_map hnd he2 he hid
      subst this
      rw [hcheck] at hc2
      exact Bool.noConfusion hc2

theorem fvc_ufoe (app : App) :
    filter_view_consistent (update_filtered_out_entries app) :=
  ⟨filtered_out_spec_ufoe app,
   fun nd => active_of_filtered_out_spec (filtered_out_spec_ufoe app) nd⟩

theorem fvc_apply_change {D : DataProvider} {app : App} {c : Change}
    {tgt : HistoryTarget} {app' : App} {v : Option Nat}
    (h : apply_change D app c tgt = OpResult.ok app' v) :
    filter_view_consistent app' := by
  cases c with
  | AddEntry id =>
    simp only [apply_change] at h
    cases hres : delete_entry_intern D app id tgt with
    | ok a u =>
      rw [hres] at h
      have h1 : a = app' := (OpResult.ok.inj h).1
      obtain ⟨rm, r2, -, happ⟩ := delete_entry_intern_ok_inv hres
      subst h1
      rw [happ]
      exact fvc_ufoe _
    | err a m => rw [hres] at h; exact OpResult.noConfusion h
    | panic m => rw [hres] at h; exact OpResult.noConfusion h
  | RemoveEntry entry =>
    simp only [apply_change] at h
    cases hres : add_entry_intern D app entry.title entry.date entry.tags entry.priority
        (some entry.content) tgt with
    | ok a u =>
      rw [hres] at h
      have h1 : a = app' := (OpResult.ok.inj h).1
      obtain ⟨ne, -, -, happ⟩ := add_entry_intern_ok_inv hres
      subst h1
      rw [happ]
      exact fvc_ufoe _
    | err a m => rw [hres] at h; exact OpResult.noConfusion h
    | panic m => rw [hres] at h; exact OpResult.noConfusion h
  | ChangeAttribute attr =>
    simp only [apply_change] at h
    cases hres : update_entry_attributes D app attr.id attr.title attr.date attr.tags
        attr.priority tgt with
    | ok a u =>
      rw [hres] at h
      have h1 : a = app' := (OpResult.ok.inj h).1
      obtain ⟨-, entry, -, -, happ⟩ := update_entry_attributes_ok_inv hres
      subst h1
      rw [happ]
      exact fvc_ufoe _
    | err a m => rw [hres] at h; exact OpResult.noConfusion h
    | panic m => rw [hres] at h; exact OpResult.noConfusion h
  | ChangeContent id content =>
    simp only [apply_change] at h
    cases hres : update_entry_content D app id content tgt with
    | ok a u =>
      rw [hres] at h
      have h1 : a = app' := (OpResult.ok.inj h).1
      obtain ⟨entry, -, -, happ⟩ := update_entry_content_ok_inv hres
      subst h1
      rw [happ]
      exact fvc_ufoe _
    | err a m => rw [hres] at h; exact OpResult.noConfusion h
    | panic m => rw [hres] at h; exact OpResult.noConfusion h

theorem pop_undo_eq {h : HistoryManager} {c : Change} {rest : List Change}
    (hs : h.undo_stack = c :: rest) :
    h.pop_undo = some (c, { h with undo_stack := rest }) := by
  unfold HistoryManager.pop_undo
  rw [hs]

theorem pop_redo_eq {h : HistoryManager} {c : Change} {rest : List Change}
    (hs : h.redo_stack = c :: rest) :
    h.pop_redo = some (c, { h with redo_stack := rest }) := by
  unfold HistoryManager.pop_redo
  rw [hs]

/-- C4: after every successful mutating operation — add, attribute update,
content update, delete (covering the user wrappers and history replay), a
mutating undo or redo — and after every apply_filter call, the filtered-out
set is exactly the ids of entries failing the active filter (empty with no
filter), and — given the unique-id invariant — get_active_entries yields
exactly the entries matching the filter; moreover any active entry's id is
never in the filtered-out set. -/
theorem filter_view_after_mutations :
    (∀ (app : App) (fopt : Option Filter),
        filter_view_consistent (apply_filter app fopt)) ∧
    (∀ (D : DataProvider) (app : App) (title : String) (date : Nat)
        (tags : List String) (priority : Option Nat) (content : Option String)
        (ht : HistoryTarget) (app' : App) (v : Nat),
        add_entry_intern D app title date tags priority content ht =
          OpResult.ok app' v →
        filter_view_consistent app') ∧
    (∀ (D : DataProvider) (app : App) (entry_id : Nat) (title : String) (date : Nat)
        (tags : List String) (priority : Option Nat) (ht : HistoryTarget)
        (app' : App) (u : Unit),
        update_entry_attributes D app entry_id title date tags priority ht =
          OpResult.ok app' u →
        filter_view_consistent app') ∧
    (∀ (D : DataProvider) (app : App) (entry_id : Nat) (entry_content : String)
        (ht : HistoryTarget) (app' : App) (u : Unit),
        update_entry_content D app entry_id entry_content ht = OpResult.ok app' u →
        filter_view_consistent app') ∧
    (∀ (D : DataProvider) (app : App) (entry_id : Nat) (ht : HistoryTarget)
        (app' : App) (u : Unit),
        delete_entry_intern D app entry_id ht = OpResult.ok app' u →
        filter_view_consistent app') ∧
    (∀ (D : DataProvider) (app : App) (c : Change) (rest : List Change)
        (app' : App) (v : Option Nat),
        app.history.undo_stack = c :: rest → undo D app = OpResult.ok app' v →
        filter_view_consistent app') ∧
    (∀ (D : DataProvider) (app : App) (c : Change) (rest : List Change)
        (app' : App) (v : Option Nat),
        app.history.redo_stack = c :: rest → redo D app = OpResult.ok app' v →
        filter_view_consistent app') ∧
    (∀ (app : App) (e : Entry), e ∈ get_active_entries app →
        e.id ∉ app.filtered_out_entries) := by
  refine ⟨?_, ?_, ?_, ?_, ?_, ?_, ?_, ?_⟩
  · intro app fopt
    exact fvc_ufoe _
  · intro D app title date tags priority content ht app' v h
    obtain ⟨ne, -, -, rfl⟩ := add_entry_intern_ok_inv h
    exact fvc_ufoe _
  · intro D app entry_id title date tags priority ht app' u h
    obtain ⟨-, entry, -, -, rfl⟩ := update_entry_attributes_ok_inv h
    exact fvc_ufoe _
  · intro D app entry_id entry_content ht app' u h
    obtain ⟨entry, -, -, rfl⟩ := update_entry_content_ok_inv h
    exact fvc_ufoe _
  · intro D app entry_id ht app' u h
    obtain ⟨removed, rest2, -, rfl⟩ := delete_entry_intern_ok_inv h
    exact fvc_ufoe _
  · intro D app c rest app' v hstack hundo
    unfold undo at hundo
    rw [pop_undo_eq hstack] at hundo
    exact fvc_apply_change hundo
  · intro D app c rest app' v hstack hredo
    unfold redo at hredo
    rw [pop_redo_eq hstack] at hredo
    exact fvc_apply_change hredo
  · intro app e he
    unfold get_active_entries at he
    rw [List.mem_filter] at he
    exact not_contains_iff.mp he.2

/-- Witness for C4: a successful add against `app0` yields a state whose
derived views satisfy the consistency predicate. -/
theorem filter_view_after_mutations_witness :
    add_entry_intern Dok app0 "T" 5 [] none none HistoryTarget.Undo =
      OpResult.ok app_add 100 ∧
    filter_view_consistent app_add := by
  have hok : add_entry_intern Dok app0 "T" 5 [] none none HistoryTarget.Undo =
      OpResult.ok app_add 100 := by decide
  exact ⟨hok, filter_view_after_mutations.2.1 Dok app0 "T" 5 [] none none
    HistoryTarget.Undo app_add 100 hok⟩

theorem apply_change_registers_inverse {D : DataProvider} {app : App} {c : Change}
    {tgt : HistoryTarget} {app' : App} {v : Option Nat}
    (h : apply_change D app c tgt = OpResult.ok app' v) :
    ∃ cr, app'.history = app.history.push tgt cr ∧
      match c with
      | Change.AddEntry id =>
          ∃ e rest2, remove_first_by_id id app.entries = some (e, rest2) ∧
            e.id = id ∧ app'.entries = rest2 ∧ cr = Change.RemoveEntry e
      | Change.RemoveEntry entry =>
          ∃ ne, D.add_entry (build_draft entry.title entry.date entry.tags entry.priority
              (some entry.content)) = Except.ok ne ∧ cr = Change.AddEntry ne.id
      | Change.ChangeAttribute attr =>
          ∃ e, app.entries.find? (fun x => x.id == attr.id) = some e ∧
            cr = Change.ChangeAttribute
              { id := e.id, title := e.title, date := e.date,
                tags := e.tags, priority := e.priority }
      | Change.ChangeContent id _ =>
          ∃ e, app.entries.find? (fun x => x.id == id) = some e ∧
            cr = Change.ChangeContent e.id e.content := by
  cases c with
  | AddEntry id =>
    simp only [apply_change] at h
    cases hres : delete_entry_intern D app id tgt with
    | ok a u =>
      rw [hres] at h
      have h1 : a = app' := (OpResult.ok.inj h).1
      obtain ⟨rm, r2, hrm, happ⟩ := delete_entry_intern_ok_inv hres
      subst h1
      refine ⟨Change.RemoveEntry rm, ?_, rm, r2, hrm,
        remove_first_by_id_found hrm, ?_, rfl⟩
      · rw [happ, update_filtered_out_history, update_filter_history]
        rfl
      · rw [happ, update_filtered_out_entries_eq, update_filter_entries]
    | err a m => rw [hres] at h; exact OpResult.noConfusion h
    | panic m => rw [hres] at h; exact OpResult.noConfusion h
  | RemoveEntry entry =>
    simp only [apply_change] at h
    cases hres : add_entry_intern D app entry.title entry.date entry.tags entry.priority
        (some entry.content) tgt with
    | ok a u =>
      rw [hres] at h
      have h1 : a = app' := (OpResult.ok.inj h).1
      obtain ⟨ne, hne, -, happ⟩ := add_entry_intern_ok_inv hres
      subst h1
      refine ⟨Change.AddEntry ne.id, ?_, ne, hne, rfl⟩
      rw [happ, update_filtered_out_history, sort_entries_history]
      rfl
    | err a m => rw [hres] at h; exact OpResult.noConfusion h
    | panic m => rw [hres] at h; exact OpResult.noConfusion h
  | ChangeAttribute attr =>
    simp only [apply_change] at h
    cases hres : update_entry_attributes D app attr.id attr.title attr.date attr.tags
        attr.priority tgt with
    | ok a u =>
      rw [hres] at h
      have h1 : a = app' := (OpResult.ok.inj h).1
      obtain ⟨-, entry, hfind, -, happ⟩ := update_entry_attributes_ok_inv hres
      subst h1
      refine ⟨Change.ChangeAttribute
        { id := entry.id, title := entry.title, date := entry.date,
          tags := entry.tags, priority := entry.priority }, ?_, entry, hfind, rfl⟩
      rw [happ, update_filtered_out_history, update_filter_history, sort_entries_history]
      rfl
    | err a m => rw [hres] at h; exact OpResult.noConfusion h
    | panic m => rw [hres] at h; exact OpResult.noConfusion h
  | ChangeContent id content =>
    simp only [apply_change] at h
    cases hres : update_entry_content D app id content tgt with
    | ok a u =>
      rw [hres] at h
      have h1 : a = app' := (OpResult.ok.inj h).1
      obtain ⟨entry, hfind, -, happ⟩ := update_entry_content_ok_inv hres
      subst h1
      refine ⟨Change.ChangeContent entry.id entry.content, ?_, entry, hfind, rfl⟩
      rw [happ, update_filtered_out_history]
      rfl
    | err a m => rw [hres] at h; exact OpResult.noConfusion h
    | panic m => rw [hres] at h; exact OpResult.noConfusion h

/-- C2: every successful undo pops the most recent record C from the undo
stack (leaving exactly the rest there, limit unchanged) and pushes exactly one
new record describing the inverse of the executed inverse action onto the redo
stack: for AddEntry(id) the entry with that id is removed from the collection
and a RemoveEntry snapshot of it is pushed; for RemoveEntry a fresh AddEntry
with the collaborator-assigned id; for attribute/content changes a snapshot of
the pre-replay values.  Redo is symmetric, pushing onto the undo stack. -/
theorem undo_redo_symmetry :
    (∀ (D : DataProvider) (app : App) (c : Change) (rest : List Change)
        (app' : App) (v : Option Nat),
        app.history.undo_stack = c :: rest →
        undo D app = OpResult.ok app' v →
        app'.history.history_limit = app.history.history_limit ∧
        app'.history.undo_stack = rest ∧
        inverse_registered D app app' c app.history.redo_stack
          app'.history.redo_stack) ∧
    (∀ (D : DataProvider) (app : App) (c : Change) (rest : List Change)
        (app' : App) (v : Option Nat),
        app.history.redo_stack = c :: rest →
        redo D app = OpResult.ok app' v →
        app'.history.history_limit = app.history.history_limit ∧
        app'.history.redo_stack = rest ∧
        inverse_registered D app app' c app.history.undo_stack
          app'.history.undo_stack) := by
  constructor
  · intro D app c rest app' v hstack hundo
    unfold undo at hundo
    rw [pop_undo_eq hstack] at hundo
    obtain ⟨cr, hhist, hcase⟩ := apply_change_registers_inverse hundo
    refine ⟨by rw [hhist]; rfl, by rw [hhist]; rfl, ?_⟩
    cases c with
    | AddEntry id =>
      obtain ⟨e, rest2, hrm, hid, hent, rfl⟩ := hcase
      exact ⟨e, rest2, hrm, hid, hent, by rw [hhist]; rfl⟩
    | RemoveEntry entry =>
      obtain ⟨ne, hne, rfl⟩ := hcase
      exact ⟨ne, hne, by rw [hhist]; rfl⟩
    | ChangeAttribute attr =>
      obtain ⟨e, hfind, rfl⟩ := hcase
      exact ⟨e, hfind, by rw [hhist]; rfl⟩
    | ChangeContent id content =>
      obtain ⟨e, hfind, rfl⟩ := hcase
      exact ⟨e, hfind, by rw [hhist]; rfl⟩
  · intro D app c rest app' v hstack hredo
    unfold redo at hredo
    rw [pop_redo_eq hstack] at hredo
    obtain ⟨cr, hhist, hcase⟩ := apply_change_registers_inverse hredo
    refine ⟨by rw [hhist]; rfl, by rw [hhist]; rfl, ?_⟩
    cases c with
    | AddEntry id =>
      obtain ⟨e, rest2, hrm, hid, hent, rfl⟩ := hcase
      exact ⟨e, rest2, hrm, hid, hent, by rw [hhist]; rfl⟩
    | RemoveEntry entry =>
      obtain ⟨ne, hne, rfl⟩ := hcase
      exact ⟨ne, hne, by rw [hhist]; rfl⟩
    | ChangeAttribute attr =>
      obtain ⟨e, hfind, rfl⟩ := hcase
      exact ⟨e, hfind, by rw [hhist]; rfl⟩
    | ChangeContent id content =>
      obtain ⟨e, hfind, rfl⟩ := hcase
      exact ⟨e, hfind, by rw [hhist]; rfl⟩

/-- Witness for C2: undoing the AddEntry(1) record of `app1` deletes entry 1
and registers its RemoveEntry snapshot on the redo stack. -/
theorem undo_redo_symmetry_witness :
    app1.history.undo_stack = Change.AddEntry 1 :: [] ∧
    undo Dok app1 = OpResult.ok app1_after none ∧
    (app1_after.history.history_limit = app1.history.history_limit ∧
     app1_after.history.undo_stack = [] ∧
     inverse_registered Dok app1 app1_after (Change.AddEntry 1)
       app1.history.redo_stack app1_after.history.redo_stack) := by
  have hok : undo Dok app1 = OpResult.ok app1_after none := by decide
  exact ⟨rfl, hok,
    undo_redo_symmetry.1 Dok app1 (Change.AddEntry 1) [] app1_after none rfl hok⟩

end TJ
